import Mathlib

/-!
Verification development for the newsroom pipeline: the editorial
state machine of src/main.py, the rejection recorder of
src/agents/subtask_agents/reject_agent.py, the live phone-interview
session of src/api/twilio/phone_service.py and the enrichment trigger
of src/utils/interview_processor.py, shallowly embedded in Lean.
-/

namespace NewsroomSpec

/-! ## Rejection recorder (src/agents/subtask_agents/reject_agent.py)

The transactional body of ArticleRejectAgent.run is embedded as the
ordered trace of its store operations.  In the source (lines 49-130):
the UPDATE setting status to rejected runs first; if it returns no row
the connection is rolled back and the agent returns; otherwise, when a
review_result is present, save_editorial_review is attempted inside a
try/except whose handler only logs; conn.commit() runs after that
attempt. -/

inductive RejectEvent
  | updateStatus
  | rollback
  | auditWriteAttempt
  | auditFailureLogged
  | commit
  deriving DecidableEq

inductive RejectOutcome
  | notFound
  | rejectedCommitted
  deriving DecidableEq

/-- Embeds the transactional body of ArticleRejectAgent.run as the ordered
list of store events it performs.  articleExists models whether the UPDATE
returned a row, hasReview whether state.review_result is set, and
auditWriteRaises whether save_editorial_review raises (its exception is
caught and logged, after which conn.commit() still runs). -/
def rejectRunTrace (articleExists hasReview auditWriteRaises : Bool) : List RejectEvent :=
  if articleExists then
    [RejectEvent.updateStatus] ++
      (if hasReview then
        [RejectEvent.auditWriteAttempt] ++
          (if auditWriteRaises then [RejectEvent.auditFailureLogged] else [])
      else []) ++
      [RejectEvent.commit]
  else
    [RejectEvent.updateStatus, RejectEvent.rollback]

/-- Embeds what ArticleRejectAgent.run reports: the zero-rows case logs that
the article was not found in the database and returns without committing. -/
def rejectRunOutcome (articleExists : Bool) : RejectOutcome :=
  if articleExists then RejectOutcome.rejectedCommitted else RejectOutcome.notFound

/-! ## Editorial subgraph routing (src/main.py, create_editorial_subgraph)

The conditional edges of the LangGraph subgraph are embedded as lookup
tables from the decision string to the target node name; a lookup miss
models the routing error LangGraph raises for a value absent from the
path map. -/

/-- Embeds the path_map of the conditional edges leaving editor_in_chief
(src/main.py lines 135-144). -/
def editorial_decision_path_map : List (String × String) :=
  [(("publish"), ("publish_article")),
   (("interview"), ("interview_planning")),
   (("revise"), ("article_fixer")),
   (("reject"), ("article_rejecter"))]

/-- Embeds the path_map of the conditional edges leaving
article_fix_validator (src/main.py lines 150-158): only publish, revise
and reject are mapped. -/
def fix_validator_path_map : List (String × String) :=
  [(("publish"), ("publish_article")),
   (("revise"), ("article_fixer")),
   (("reject"), ("article_rejecter"))]

/-- Routing out of the validating_fix node: the decision string is looked up
in fix_validator_path_map; none models the LangGraph error for an unmapped
value. -/
def routeFromValidatingFix (decision : String) : Option String :=
  List.lookup decision fix_validator_path_map

/-- Routing out of the evaluating node: lookup in editorial_decision_path_map. -/
def routeFromEvaluating (decision : String) : Option String :=
  List.lookup decision editorial_decision_path_map

/-! ## The revision loop with its iteration cap

src/main.py wires article_fixer to article_fix_validator and routes the
validator decision through fix_validator_path_map (the comment at line
148 states the intent: if iterations over 2, reject).  The guard itself
lives in FixValidationAgent (agents/subtask_agents/editor_in_chief_validate_fixes),
whose file is not among the staged sources, so it is modelled from the
spec below. -/

/-- Modelled from the spec: the FixValidationAgent source
(agents/subtask_agents/editor_in_chief_validate_fixes.py, imported by
src/main.py but not present under src/) applies the RevisionCycle guard:
if the iteration count has reached the cap, force reject regardless of
the validator output. -/
def guardedFixDecision (cap iter : Nat) (validatorDecision : String) : String :=
  if cap ≤ iter then ("reject") else validatorDecision

inductive EditorialNode
  | article_fixer
  | article_fix_validator
  | publish_article
  | article_rejecter
  | routing_error
  | finished
  deriving DecidableEq

/-- The subgraph node a validating_fix decision string routes to, through
fix_validator_path_map; an unmapped value yields routing_error. -/
def decisionTarget (decision : String) : EditorialNode :=
  match routeFromValidatingFix decision with
  | none => EditorialNode.routing_error
  | some target =>
    if target = ("publish_article") then EditorialNode.publish_article
    else if target = ("article_fixer") then EditorialNode.article_fixer
    else if target = ("article_rejecter") then EditorialNode.article_rejecter
    else EditorialNode.routing_error

/-- One transition of the editorial subgraph restricted to the
fix-validation loop (src/main.py lines 146-158 plus the terminal edges at
lines 171-172).  The Nat component is the RevisionCycle iteration count,
increased each time article_fixer runs; validator gives the raw fix
validator decision at each iteration and guardedFixDecision applies the
spec-modelled cap guard to it before routing. -/
def editorialStep (cap : Nat) (validator : Nat → String) :
    EditorialNode × Nat → EditorialNode × Nat
  | (EditorialNode.article_fixer, n) => (EditorialNode.article_fix_validator, n + 1)
  | (EditorialNode.article_fix_validator, n) =>
      (decisionTarget (guardedFixDecision cap n (validator n)), n)
  | (EditorialNode.publish_article, n) => (EditorialNode.finished, n)
  | (EditorialNode.article_rejecter, n) => (EditorialNode.finished, n)
  | (EditorialNode.routing_error, n) => (EditorialNode.routing_error, n)
  | (EditorialNode.finished, n) => (EditorialNode.finished, n)

/-! ## Phone interview session (src/api/twilio/phone_service.py)

The per-call turn log holds entries of speaker and text; the process-wide
mappings keyed by stream or call identifier are embedded as association
lists. -/

inductive Speaker
  | user
  | assistant
  deriving DecidableEq

structure LogEntry where
  speaker : Speaker
  text : String
  deriving DecidableEq

/-- Embeds MIN_AI_SPEECH_MS of handle_speech_started_event. -/
def MIN_AI_SPEECH_MS : Nat := 1000

/-- Embeds TRUNCATE_BUFFER_MS of handle_speech_started_event. -/
def TRUNCATE_BUFFER_MS : Nat := 150

/-- Embeds handle_speech_started_event (phone_service.py lines 553-600) as
the audio_end_ms offset of the emitted truncate event, or none when no
truncate event is emitted: no active assistant item, no audio sent yet,
audio below MIN_AI_SPEECH_MS, or a computed offset of zero all skip the
truncate. -/
def handle_speech_started_event (last_assistant_item : Bool)
    (ai_audio_ms_sent : Nat) : Option Nat :=
  if last_assistant_item = false then none
  else if ai_audio_ms_sent = 0 then none
  else if ai_audio_ms_sent < MIN_AI_SPEECH_MS then none
  else
    let audio_end_ms := max 0 (ai_audio_ms_sent - TRUNCATE_BUFFER_MS)
    if audio_end_ms = 0 then none
    else some audio_end_ms

/-- Embeds the Python str.strip call on transcripts: drops leading and
trailing whitespace characters. -/
def pyStrip (s : String) : String :=
  ⟨(((s.data.dropWhile Char.isWhitespace).reverse).dropWhile Char.isWhitespace).reverse⟩

/-- Embeds the Python str.lower call: lowercases character by character. -/
def pyLower (s : String) : String :=
  ⟨s.data.map Char.toLower⟩

/-- Embeds the user-transcription branch of send_to_twilio (phone_service.py
lines 408-421): a stripped transcript, if nonempty, is appended as a user
entry unless the immediately preceding log entry carries the same text. -/
def appendUserTranscription (log : List LogEntry) (transcript : String) :
    List LogEntry :=
  let transcript_text := pyStrip transcript
  if transcript_text = ("") then log
  else
    match log.getLast? with
    | none => log ++ [⟨Speaker.user, transcript_text⟩]
    | some lastEntry =>
      if lastEntry.text = transcript_text then log
      else log ++ [⟨Speaker.user, transcript_text⟩]

/-- Embeds the fixed end-of-interview phrase set of the response.done
handler (phone_service.py lines 440-445). -/
def end_phrases : List String :=
  [("kiitos haastattelusta"),
   ("hyvää päivänjatkoa"),
   ("haastattelu päättyi kiitos"),
   ("nämä olivat kaikki kysymykset")]

/-- Contiguous-sublist test over character lists, used to embed the Python
substring operator. -/
def containsSubList (pat : List Char) : List Char → Bool
  | [] => pat.isEmpty
  | c :: rest => pat.isPrefixOf (c :: rest) || containsSubList pat rest

/-- Embeds the end-phrase test: some fixed phrase occurs as a substring of
the lowercased transcript. -/
def containsEndPhrase (transcript : String) : Bool :=
  end_phrases.any (fun phrase => containsSubList phrase.data (pyLower transcript).data)

structure AssistantAppendResult where
  log : List LogEntry
  callEnded : Bool
  deriving DecidableEq

/-- Embeds the assistant-transcript branch of the response.done handler
(phone_service.py lines 431-490) for one audio content part: a transcript
containing an end phrase ends the call and is never appended; otherwise a
nonempty transcript is appended as an assistant entry. -/
def appendAssistantTranscript (log : List LogEntry) (transcript : String) :
    AssistantAppendResult :=
  if containsEndPhrase transcript then ⟨log, true⟩
  else if transcript = ("") then ⟨log, false⟩
  else ⟨log ++ [⟨Speaker.assistant, transcript⟩], false⟩

/-- Joins a run of texts with newline separators, embedding the join in
save_conversation_log. -/
def joinNL : List String → String
  | [] => ("")
  | [t] => t
  | t :: rest => t ++ ("\n") ++ joinNL rest

/-- Embeds the dialogue_turns construction of save_conversation_log
(phone_service.py lines 766-769): itertools.groupby over the speaker key,
each run collapsed to one entry whose text joins the run with newlines. -/
def groupDialogueTurns : List LogEntry → List LogEntry
  | [] => []
  | e :: rest =>
    match groupDialogueTurns rest with
    | [] => [⟨e.speaker, e.text⟩]
    | g :: gs =>
      if e.speaker = g.speaker then ⟨e.speaker, e.text ++ ("\n") ++ g.text⟩ :: gs
      else ⟨e.speaker, e.text⟩ :: g :: gs

/-- Removes every binding of a key from an association list, embedding
dict.pop on the process-wide mappings. -/
def eraseKey {β : Type} (k : String) (m : List (String × β)) : List (String × β) :=
  m.filter (fun p => p.1 != k)

/-- The process-wide mutable mappings of phone_service.py, keyed by stream
or call identifier.  The call_to_article value (a dict holding article_id
and phone_script) is abstracted to the article identifier, and the stored
phone script to an opaque string. -/
structure StreamMaps where
  stream_to_call : List (String × String)
  call_to_article : List (String × Nat)
  stream_to_article : List (String × Nat)
  stream_phone_scripts : List (String × String)
  conversation_logs : List (String × List LogEntry)
  deriving DecidableEq

/-- Embeds the cleanup block of the stop branch of receive_from_twilio
(phone_service.py lines 331-336); the WebSocketDisconnect branch (lines
359-364) runs the identical block when call_ended is still false.  It pops
stream_to_call, the linked call_to_article entry, stream_to_article and
stream_phone_scripts. -/
def stopEventCleanup (M : StreamMaps) (stream_sid : String) : StreamMaps :=
  let cs := List.lookup stream_sid M.stream_to_call
  { M with
    stream_to_call := eraseKey stream_sid M.stream_to_call
    call_to_article :=
      match cs with
      | some c => eraseKey c M.call_to_article
      | none => M.call_to_article
    stream_to_article := eraseKey stream_sid M.stream_to_article
    stream_phone_scripts := eraseKey stream_sid M.stream_phone_scripts }

structure FinalizeResult where
  wroteLogFiles : Bool
  dbArticleId : Option Nat
  deriving DecidableEq

/-- Embeds save_conversation_log (phone_service.py lines 745-800) as its
effect on the process-wide maps plus what it reports: with a nonempty
conversation log it pops the log, writes the raw and grouped log files, pops
stream_to_article and, only when that pop yielded an article identifier,
attempts the interview database update; with no log entry it returns
without touching anything. -/
def save_conversation_log (M : StreamMaps) (stream_sid : String) :
    FinalizeResult × StreamMaps :=
  match List.lookup stream_sid M.conversation_logs with
  | none => (⟨false, none⟩, M)
  | some conversation_log =>
    if conversation_log = [] then (⟨false, none⟩, M)
    else
      let M1 := { M with conversation_logs := eraseKey stream_sid M.conversation_logs }
      let article_id := List.lookup stream_sid M1.stream_to_article
      let M2 := { M1 with stream_to_article := eraseKey stream_sid M1.stream_to_article }
      (⟨true, article_id⟩, M2)

/-- The stop and disconnect termination paths: the receive task runs its
cleanup block, then the handler finally-block runs save_conversation_log. -/
def stopPathFinal (M : StreamMaps) (stream_sid : String) :
    FinalizeResult × StreamMaps :=
  save_conversation_log (stopEventCleanup M stream_sid) stream_sid

/-- The end-phrase termination path: send_to_twilio sets call_ended, sleeps
the grace period and closes both sockets without popping any map
(phone_service.py lines 449-479); the receive task then skips its
disconnect cleanup because call_ended is already true (line 342), so only
the handler finally-block finalization runs. -/
def endPhrasePathFinal (M : StreamMaps) (stream_sid : String) :
    FinalizeResult × StreamMaps :=
  save_conversation_log M stream_sid

/-- A concrete session: stream MZ1 linked to call CA1, article 42, with a
registered script and a one-entry conversation log. -/
def M0 : StreamMaps :=
  { stream_to_call := [(("MZ1"), ("CA1"))]
    call_to_article := [(("CA1"), 42)]
    stream_to_article := [(("MZ1"), 42)]
    stream_phone_scripts := [(("MZ1"), ("script"))]
    conversation_logs := [(("MZ1"), [⟨Speaker.user, ("moi")⟩])] }

/-! ## Enrichment trigger (src/utils/interview_processor.py) -/

inductive EnrichOutcome
  | ok (result : String)
  | raises (msg : String)
  deriving DecidableEq

/-- One run of the blocking enrichment call: how many seconds it takes and
whether it returns or raises. -/
structure EnrichRun where
  duration_s : Nat
  outcome : EnrichOutcome
  deriving DecidableEq

/-- Embeds the timeout argument of asyncio.wait_for in process_call_ended. -/
def ENRICHMENT_TIMEOUT_S : Nat := 300

/-- Embeds process_call_ended (interview_processor.py lines 11-37): the
enrichment call is awaited under a 300 second timeout; TimeoutError and
every other exception are caught, logged and turned into None, so as a
total function it never raises to its caller. -/
def process_call_ended (run : EnrichRun) : Option String :=
  if ENRICHMENT_TIMEOUT_S < run.duration_s then none
  else
    match run.outcome with
    | EnrichOutcome.ok r => some r
    | EnrichOutcome.raises _ => none

inductive InterviewEvent
  | transcriptUpdate
  | attemptUpdate
  | enrichTrigger
  deriving DecidableEq

/-- Embeds the ordering inside update_interview_by_article_id
(phone_service.py lines 803-879): the transcript UPDATE runs first (each
asyncpg statement commits on its own); only when it returned an interview
id are the attempt-record update and then the fire-and-forget enrichment
trigger performed, so the transcript is already persisted when the trigger
starts and no later event touches it. -/
def update_interview_trace (interviewFound : Bool) : List InterviewEvent :=
  if interviewFound then
    [InterviewEvent.transcriptUpdate, InterviewEvent.attemptUpdate,
     InterviewEvent.enrichTrigger]
  else
    [InterviewEvent.transcriptUpdate]

/-! ## Theorems -/

/-- Helper: the validating_fix step routes the guarded decision. -/
theorem editorialStep_validator_eq (cap : Nat) (validator : Nat → String) (n : Nat) :
    editorialStep cap validator (EditorialNode.article_fix_validator, n) =
      (decisionTarget (guardedFixDecision cap n (validator n)), n) := rfl

/-- Helper: the guard forces reject once the cap is reached. -/
theorem guardedFixDecision_of_cap_le (cap n : Nat) (s : String) (h : cap ≤ n) :
    guardedFixDecision cap n s = ("reject") := if_pos h

/-- Helper: the guard passes the validator decision through below the cap. -/
theorem guardedFixDecision_of_lt (cap n : Nat) (s : String) (h : n < cap) :
    guardedFixDecision cap n s = s := if_neg (by omega)

/-- Helper: while the iteration count stays below the cap, each pass of the
revising to validating_fix loop with a validator that answers revise returns
to article_fixer with the count increased by one. -/
theorem revisionLoop_below_cap (cap : Nat) (validator : Nat → String)
    (hv : ∀ n, validator n = ("revise")) :
    ∀ m, m < cap →
      (editorialStep cap validator)^[2 * m] (EditorialNode.article_fixer, 0) =
        (EditorialNode.article_fixer, m) := by
  intro m
  induction m with
  | zero => intro _; rfl
  | succ m ih =>
    intro h
    have ih2 := ih (by omega)
    have h2 : 2 * (m + 1) = 2 * m + 1 + 1 := by omega
    rw [h2, Function.iterate_succ_apply', Function.iterate_succ_apply', ih2]
    have s1 : editorialStep cap validator (EditorialNode.article_fixer, m) =
        (EditorialNode.article_fix_validator, m + 1) := rfl
    rw [s1, editorialStep_validator_eq, hv (m + 1),
      guardedFixDecision_of_lt cap (m + 1) _ h]
    rfl

/-- Helper: every state reachable from the loop entry keeps its iteration
count at most cap, and is strictly below cap whenever it is about to run
article_fixer again. -/
theorem revisionLoop_counter_invariant (cap : Nat) (validator : Nat → String)
    (hcap : 0 < cap) :
    ∀ k, ((editorialStep cap validator)^[k] (EditorialNode.article_fixer, 0)).2 ≤ cap ∧
      (((editorialStep cap validator)^[k] (EditorialNode.article_fixer, 0)).1 =
          EditorialNode.article_fixer →
        ((editorialStep cap validator)^[k] (EditorialNode.article_fixer, 0)).2 < cap) := by
  intro k
  induction k with
  | zero => exact ⟨Nat.zero_le _, fun _ => hcap⟩
  | succ k ih =>
    rw [Function.iterate_succ_apply']
    obtain ⟨h1, h2⟩ := ih
    set s := (editorialStep cap validator)^[k] (EditorialNode.article_fixer, 0) with hs
    obtain ⟨node, n⟩ := s
    simp only at h1 h2
    cases node with
    | article_fixer =>
      exact ⟨h2 rfl, fun hcontr => by cases hcontr⟩
    | article_fix_validator =>
      rw [editorialStep_validator_eq]
      refine ⟨h1, fun hfix => ?_⟩
      by_cases hc : cap ≤ n
      · rw [guardedFixDecision_of_cap_le cap n _ hc] at hfix
        cases hfix
      · omega
    | publish_article => exact ⟨h1, fun hcontr => by cases hcontr⟩
    | article_rejecter => exact ⟨h1, fun hcontr => by cases hcontr⟩
    | routing_error => exact ⟨h1, fun hcontr => by cases hcontr⟩
    | finished => exact ⟨h1, fun hcontr => by cases hcontr⟩

/-- C2: with a fix validator that always answers revise, the revising to
validating_fix loop runs exactly cap iterations and the next transition
out of validating_fix is forced to article_rejecter; the iteration count
never exceeds cap, and once the count has reached cap the transition out
of validating_fix is article_rejecter for every validator. -/
theorem revision_cap_forces_reject (cap : Nat) (validator : Nat → String)
    (hcap : 0 < cap) (hv : ∀ n, validator n = ("revise")) :
    (editorialStep cap validator)^[2 * cap] (EditorialNode.article_fixer, 0) =
      (EditorialNode.article_rejecter, cap) ∧
    (∀ k, ((editorialStep cap validator)^[k] (EditorialNode.article_fixer, 0)).2 ≤ cap) ∧
    (∀ (v : Nat → String) (n : Nat), cap ≤ n →
      editorialStep cap v (EditorialNode.article_fix_validator, n) =
        (EditorialNode.article_rejecter, n)) := by
  refine ⟨?_, fun k => (revisionLoop_counter_invariant cap validator hcap k).1,
    fun v n h => ?_⟩
  · obtain ⟨c, rfl⟩ : ∃ c, cap = c + 1 := ⟨cap - 1, by omega⟩
    have hl := revisionLoop_below_cap (c + 1) validator hv c (by omega)
    have h2 : 2 * (c + 1) = 2 * c + 1 + 1 := by omega
    rw [h2, Function.iterate_succ_apply', Function.iterate_succ_apply', hl]
    have s1 : editorialStep (c + 1) validator (EditorialNode.article_fixer, c) =
        (EditorialNode.article_fix_validator, c + 1) := rfl
    rw [s1, editorialStep_validator_eq,
      guardedFixDecision_of_cap_le (c + 1) (c + 1) _ (le_refl (c + 1))]
    rfl
  · rw [editorialStep_validator_eq, guardedFixDecision_of_cap_le cap n _ h]
    rfl

/-- C1 counterexample: in the run where the article exists, a review_result
is present and the audit write succeeds, the audit write is attempted
strictly before the commit, so the status update is not committed before
the audit write is attempted. -/
theorem reject_audit_attempted_before_commit_cex :
    rejectRunTrace true true false =
      [RejectEvent.updateStatus, RejectEvent.auditWriteAttempt, RejectEvent.commit] ∧
    List.indexOf RejectEvent.auditWriteAttempt (rejectRunTrace true true false) <
      List.indexOf RejectEvent.commit (rejectRunTrace true true false) := by
  decide

/-- C1 amended: for every rejection of an article present in the store, the
status update statement executes before the audit write is attempted and the
commit is issued after the audit attempt; an audit write that raises is
caught, so it does not prevent the commit, but the status change is not yet
committed when the audit write is attempted. -/
theorem reject_commit_after_audit_attempt (hasReview auditRaises : Bool) :
    RejectEvent.commit ∈ rejectRunTrace true hasReview auditRaises ∧
    List.indexOf RejectEvent.updateStatus (rejectRunTrace true hasReview auditRaises) <
      List.indexOf RejectEvent.commit (rejectRunTrace true hasReview auditRaises) ∧
    (hasReview = true →
      List.indexOf RejectEvent.auditWriteAttempt (rejectRunTrace true hasReview auditRaises) <
        List.indexOf RejectEvent.commit (rejectRunTrace true hasReview auditRaises)) := by
  cases hasReview <;> cases auditRaises <;> decide

/-- Witness for the amended C1, at the run with a review whose audit write
raises: the commit still occurs, after the audit attempt. -/
theorem reject_commit_after_audit_attempt_witness :
    RejectEvent.commit ∈ rejectRunTrace true true true ∧
    List.indexOf RejectEvent.updateStatus (rejectRunTrace true true true) <
      List.indexOf RejectEvent.commit (rejectRunTrace true true true) ∧
    List.indexOf RejectEvent.auditWriteAttempt (rejectRunTrace true true true) <
      List.indexOf RejectEvent.commit (rejectRunTrace true true true) :=
  ⟨(reject_commit_after_audit_attempt true true).1,
   (reject_commit_after_audit_attempt true true).2.1,
   (reject_commit_after_audit_attempt true true).2.2 rfl⟩

/-- C8: when the status update affects zero rows, the run rolls back without
committing, never attempts the audit write, and reports not found. -/
theorem reject_not_found_aborts (hasReview auditRaises : Bool) :
    rejectRunTrace false hasReview auditRaises =
      [RejectEvent.updateStatus, RejectEvent.rollback] ∧
    RejectEvent.commit ∉ rejectRunTrace false hasReview auditRaises ∧
    RejectEvent.auditWriteAttempt ∉ rejectRunTrace false hasReview auditRaises ∧
    rejectRunOutcome false = RejectOutcome.notFound := by
  cases hasReview <;> cases auditRaises <;> decide

/-- Witness for C8 at the run with a review whose audit write would raise. -/
theorem reject_not_found_aborts_witness :
    rejectRunTrace false true true = [RejectEvent.updateStatus, RejectEvent.rollback] ∧
    RejectEvent.commit ∉ rejectRunTrace false true true ∧
    RejectEvent.auditWriteAttempt ∉ rejectRunTrace false true true ∧
    rejectRunOutcome false = RejectOutcome.notFound :=
  reject_not_found_aborts true true

/-- C3 counterexample: from validating_fix, the decision interview is not
routed to the interview node and an unrecognized decision is not routed to
the rejection node; both are unmapped. -/
theorem validating_fix_routing_cex :
    routeFromValidatingFix ("interview") = none ∧
    routeFromValidatingFix ("interview") ≠ some ("interview_planning") ∧
    routeFromValidatingFix ("unknown") = none ∧
    routeFromValidatingFix ("unknown") ≠ some ("article_rejecter") := by
  decide

/-- C3 amended: from validating_fix, publish routes to publishing, revise
routes back to revising and reject routes to rejecting, but unlike the
evaluating table (which maps interview to interviewing) every other decision
value, interview included, is unmapped and raises a routing error instead of
defaulting to rejecting. -/
theorem validating_fix_routing (d : String) :
    routeFromValidatingFix ("publish") = some ("publish_article") ∧
    routeFromValidatingFix ("revise") = some ("article_fixer") ∧
    routeFromValidatingFix ("reject") = some ("article_rejecter") ∧
    routeFromEvaluating ("interview") = some ("interview_planning") ∧
    (d ≠ ("publish") → d ≠ ("revise") → d ≠ ("reject") →
      routeFromValidatingFix d = none) := by
  refine ⟨by decide, by decide, by decide, by decide, fun h1 h2 h3 => ?_⟩
  have e1 : (d == ("publish")) = false := beq_eq_false_iff_ne.mpr h1
  have e2 : (d == ("revise")) = false := beq_eq_false_iff_ne.mpr h2
  have e3 : (d == ("reject")) = false := beq_eq_false_iff_ne.mpr h3
  simp [routeFromValidatingFix, fix_validator_path_map, List.lookup, e1, e2, e3]

/-- Witness for the amended C3 at the decision interview. -/
theorem validating_fix_routing_witness :
    routeFromValidatingFix ("publish") = some ("publish_article") ∧
    routeFromValidatingFix ("interview") = none :=
  ⟨(validating_fix_routing ("interview")).1,
   (validating_fix_routing ("interview")).2.2.2.2 (by decide) (by decide) (by decide)⟩

/-- Witness for C2 at cap 2 with the constant revise validator. -/
theorem revision_cap_forces_reject_witness :
    (editorialStep 2 (fun _ => ("revise")))^[4] (EditorialNode.article_fixer, 0) =
      (EditorialNode.article_rejecter, 2) ∧
    ((editorialStep 2 (fun _ => ("revise")))^[5] (EditorialNode.article_fixer, 0)).2 ≤ 2 ∧
    editorialStep 2 (fun _ => ("revise")) (EditorialNode.article_fix_validator, 2) =
      (EditorialNode.article_rejecter, 2) :=
  ⟨(revision_cap_forces_reject 2 (fun _ => ("revise")) (by omega) (fun _ => rfl)).1,
   (revision_cap_forces_reject 2 (fun _ => ("revise")) (by omega) (fun _ => rfl)).2.1 5,
   (revision_cap_forces_reject 2 (fun _ => ("revise")) (by omega) (fun _ => rfl)).2.2
     (fun _ => ("revise")) 2 (by omega)⟩

/-- C4: during an active assistant utterance, a barge-in with less than
MIN_AI_SPEECH_MS of AI audio sent emits no truncate event, and one with at
least that much emits a truncate whose offset is the audio sent minus
TRUNCATE_BUFFER_MS. -/
theorem barge_in_truncation (n : Nat) :
    (n < 1000 → handle_speech_started_event true n = none) ∧
    (1000 ≤ n → handle_speech_started_event true n = some (n - TRUNCATE_BUFFER_MS)) ∧
    MIN_AI_SPEECH_MS = 1000 ∧ TRUNCATE_BUFFER_MS = 150 := by
  refine ⟨fun h => ?_, fun h => ?_, rfl, rfl⟩
  · by_cases h0 : n = 0
    · simp [handle_speech_started_event, h0]
    · simp [handle_speech_started_event, h0, MIN_AI_SPEECH_MS, h]
  · have h0 : ¬ n = 0 := by omega
    have h1 : ¬ n < MIN_AI_SPEECH_MS := by
      simp only [MIN_AI_SPEECH_MS]
      omega
    have h2 : ¬ (max 0 (n - TRUNCATE_BUFFER_MS) = 0) := by
      simp only [TRUNCATE_BUFFER_MS, Nat.zero_max]
      omega
    have h3 : ¬ (n - TRUNCATE_BUFFER_MS = 0) := by
      simp only [TRUNCATE_BUFFER_MS]
      omega
    simp [handle_speech_started_event, h0, h1, h2, h3, Nat.zero_max]

/-- Witness for C4: 800 ms sent emits nothing, 1500 ms sent truncates at
exactly 1350 ms. -/
theorem barge_in_truncation_witness :
    handle_speech_started_event true 800 = none ∧
    handle_speech_started_event true 1500 = some 1350 :=
  ⟨(barge_in_truncation 800).1 (by omega),
   ((barge_in_truncation 1500).2.1 (by omega)).trans (by decide)⟩

/-- C5 counterexample: an assistant transcript fragment from a completed
response that contains an end-of-interview phrase is never appended to the
turn log; the handler ends the call instead, so adjacent-duplicate user
suppression is not the sole exception to appending. -/
theorem assistant_end_phrase_not_appended_cex :
    (appendAssistantTranscript [] ("kiitos haastattelusta")).log = [] ∧
    (appendAssistantTranscript [] ("kiitos haastattelusta")).log ≠
      [⟨Speaker.assistant, ("kiitos haastattelusta")⟩] ∧
    (appendAssistantTranscript [] ("kiitos haastattelusta")).callEnded = true := by
  refine ⟨rfl, by decide, rfl⟩

/-- Helper: a user transcription identical to the entry just appended for it
is suppressed. -/
theorem appendUserTranscription_concat (t : String) (h0 : pyStrip t ≠ (""))
    (l : List LogEntry) :
    appendUserTranscription (l ++ [⟨Speaker.user, pyStrip t⟩]) t =
      l ++ [⟨Speaker.user, pyStrip t⟩] := by
  simp [appendUserTranscription, h0, List.getLast?_concat]

/-- C5 amended: repeating the same user transcription immediately appends
nothing the second time (exactly one entry for two identical consecutive
events); a nonempty user transcription whose text differs from the last
entry is appended; and an assistant fragment is appended when it is
nonempty and free of end-of-interview phrases (end-phrase fragments end
the call instead, and empty transcripts are skipped). -/
theorem transcript_append_dedup (log : List LogEntry) (t a : String) :
    appendUserTranscription (appendUserTranscription log t) t =
      appendUserTranscription log t ∧
    (pyStrip t ≠ ("") → log.getLast?.map LogEntry.text ≠ some (pyStrip t) →
      appendUserTranscription log t = log ++ [⟨Speaker.user, pyStrip t⟩]) ∧
    (containsEndPhrase a = false → a ≠ ("") →
      appendAssistantTranscript log a =
        ⟨log ++ [⟨Speaker.assistant, a⟩], false⟩) := by
  refine ⟨?_, fun h1 h2 => ?_, fun h1 h2 => ?_⟩
  · by_cases h0 : pyStrip t = ("")
    · simp [appendUserTranscription, h0]
    · cases hL : log.getLast? with
      | none =>
        have e1 : appendUserTranscription log t = log ++ [⟨Speaker.user, pyStrip t⟩] := by
          simp [appendUserTranscription, h0, hL]
        rw [e1, appendUserTranscription_concat t h0]
      | some lastEntry =>
        by_cases he : lastEntry.text = pyStrip t
        · have e1 : appendUserTranscription log t = log := by
            simp [appendUserTranscription, h0, hL, he]
          rw [e1]
          simp [appendUserTranscription, h0, hL, he]
        · have e1 : appendUserTranscription log t = log ++ [⟨Speaker.user, pyStrip t⟩] := by
            simp [appendUserTranscription, h0, hL, he]
          rw [e1, appendUserTranscription_concat t h0]
  · cases hL : log.getLast? with
    | none => simp [appendUserTranscription, h1, hL]
    | some lastEntry =>
      have he : lastEntry.text ≠ pyStrip t := by
        rw [hL] at h2
        simpa using h2
      simp [appendUserTranscription, h1, hL, he]
  · simp [appendAssistantTranscript, h1, h2]

/-- Witness for the amended C5 on a fresh log with the user transcription
moi twice and the assistant fragment hei. -/
theorem transcript_append_dedup_witness :
    appendUserTranscription (appendUserTranscription [] ("moi")) ("moi") =
      appendUserTranscription [] ("moi") ∧
    appendUserTranscription [] ("moi") = [⟨Speaker.user, ("moi")⟩] ∧
    appendAssistantTranscript [] ("hei") =
      ⟨[⟨Speaker.assistant, ("hei")⟩], false⟩ := by
  refine ⟨(transcript_append_dedup [] ("moi") ("hei")).1, ?_, ?_⟩
  · exact ((transcript_append_dedup [] ("moi") ("hei")).2.1
      (by decide) (by decide)).trans (by decide)
  · exact (transcript_append_dedup [] ("moi") ("hei")).2.2 (by decide) (by decide)

/-- Helper: definitional unfolding of groupDialogueTurns on a cons. -/
theorem groupDialogueTurns_cons (e : LogEntry) (l : List LogEntry) :
    groupDialogueTurns (e :: l) =
      match groupDialogueTurns l with
      | [] => [⟨e.speaker, e.text⟩]
      | g :: gs =>
        if e.speaker = g.speaker then ⟨e.speaker, e.text ++ ("\n") ++ g.text⟩ :: gs
        else ⟨e.speaker, e.text⟩ :: g :: gs := rfl

/-- Helper: grouping a nonempty log yields a first group carrying the first
entry's speaker. -/
theorem groupDialogueTurns_head_speaker (e : LogEntry) (l : List LogEntry) :
    ∃ g gs, groupDialogueTurns (e :: l) = g :: gs ∧ g.speaker = e.speaker := by
  cases h : groupDialogueTurns l with
  | nil =>
    exact ⟨⟨e.speaker, e.text⟩, [], by rw [groupDialogueTurns_cons, h], rfl⟩
  | cons g gs =>
    by_cases hs : e.speaker = g.speaker
    · refine ⟨⟨e.speaker, e.text ++ ("\n") ++ g.text⟩, gs, ?_, rfl⟩
      rw [groupDialogueTurns_cons, h]
      simp [hs]
    · refine ⟨⟨e.speaker, e.text⟩, g :: gs, ?_, rfl⟩
      rw [groupDialogueTurns_cons, h]
      simp [hs]

/-- Helper: a nonempty run of one speaker followed by a log starting with a
different speaker groups to one joined turn in front of the grouped rest. -/
theorem groupDialogueTurns_run (s : Speaker) (rest : List LogEntry)
    (hbd : ∀ e, rest.head? = some e → e.speaker ≠ s) :
    ∀ (t : String) (ts : List String),
      groupDialogueTurns ((t :: ts).map (fun x => (⟨s, x⟩ : LogEntry)) ++ rest) =
        ⟨s, joinNL (t :: ts)⟩ :: groupDialogueTurns rest := by
  intro t ts
  induction ts generalizing t with
  | nil =>
    simp only [List.map_cons, List.map_nil, List.cons_append, List.nil_append]
    cases hr : rest with
    | nil => rfl
    | cons e rest2 =>
      have hes : e.speaker ≠ s := hbd e (by rw [hr]; rfl)
      obtain ⟨g, gs, hgg, hsp⟩ := groupDialogueTurns_head_speaker e rest2
      rw [groupDialogueTurns_cons, hgg]
      have hne2 : s ≠ g.speaker := fun hh => hes (hsp.symm.trans hh.symm)
      simp [hne2, joinNL]
  | cons t2 ts2 ih =>
    simp only [List.map_cons, List.cons_append]
    rw [groupDialogueTurns_cons]
    have ih2 := ih t2
    simp only [List.map_cons, List.cons_append] at ih2
    rw [ih2]
    simp [joinNL]

/-- C6: finalization groups consecutive same-speaker entries into one
dialogue turn whose text joins the run with newlines: a run of speaker s
followed by a rest opening with a different speaker groups to one turn in
front of the grouped rest. -/
theorem dialogue_grouping (s : Speaker) (texts : List String) (rest : List LogEntry)
    (hne : texts ≠ []) (hbd : ∀ e, rest.head? = some e → e.speaker ≠ s) :
    groupDialogueTurns (texts.map (fun x => (⟨s, x⟩ : LogEntry)) ++ rest) =
      ⟨s, joinNL texts⟩ :: groupDialogueTurns rest := by
  cases texts with
  | nil => exact absurd rfl hne
  | cons t ts => exact groupDialogueTurns_run s rest hbd t ts

/-- Witness for C6 at the spec's example input. -/
theorem dialogue_grouping_witness :
    groupDialogueTurns
        [⟨Speaker.user, ("a")⟩, ⟨Speaker.user, ("b")⟩, ⟨Speaker.assistant, ("c")⟩] =
      [⟨Speaker.user, ("a\nb")⟩, ⟨Speaker.assistant, ("c")⟩] := by
  have hbd : ∀ e : LogEntry,
      ([⟨Speaker.assistant, ("c")⟩] : List LogEntry).head? = some e →
        e.speaker ≠ Speaker.user := by
    intro e he
    have he2 : (⟨Speaker.assistant, ("c")⟩ : LogEntry) = e := by simpa using he
    rw [← he2]
    decide
  exact (dialogue_grouping Speaker.user [("a"), ("b")] [⟨Speaker.assistant, ("c")⟩]
    (by decide) hbd).trans (by decide)

/-- Helper: a key is never found after eraseKey removed it. -/
theorem lookup_eraseKey {β : Type} (k : String) (m : List (String × β)) :
    List.lookup k (eraseKey k m) = none := by
  induction m with
  | nil => rfl
  | cons p tail ih =>
    obtain ⟨k2, v⟩ := p
    by_cases h : k2 = k
    · simpa [eraseKey, List.filter_cons, h] using ih
    · have hb : (k2 != k) = true := bne_iff_ne.mpr h
      have hb2 : (k == k2) = false := beq_eq_false_iff_ne.mpr (Ne.symm h)
      simpa [eraseKey, List.filter_cons, hb, List.lookup, hb2] using ih

/-- C7: at the concrete session M0, the stop termination path deletes all
four process-wide mappings, but the end-phrase termination path leaves the
stream-to-call, call-to-article and script entries in place after the
session closes (only stream-to-article is removed, by the finalization),
contradicting the claimed cleanup on every termination path. -/
theorem end_phrase_path_leaks_mappings :
    (List.lookup ("MZ1") (stopPathFinal M0 ("MZ1")).2.stream_to_call = none ∧
     List.lookup ("CA1") (stopPathFinal M0 ("MZ1")).2.call_to_article = none ∧
     List.lookup ("MZ1") (stopPathFinal M0 ("MZ1")).2.stream_to_article = none ∧
     List.lookup ("MZ1") (stopPathFinal M0 ("MZ1")).2.stream_phone_scripts = none) ∧
    (List.lookup ("MZ1") (endPhrasePathFinal M0 ("MZ1")).2.stream_to_call =
        some ("CA1") ∧
     List.lookup ("CA1") (endPhrasePathFinal M0 ("MZ1")).2.call_to_article =
        some 42 ∧
     List.lookup ("MZ1") (endPhrasePathFinal M0 ("MZ1")).2.stream_phone_scripts =
        some ("script") ∧
     List.lookup ("MZ1") (endPhrasePathFinal M0 ("MZ1")).2.stream_to_article =
        none) := by
  decide

/-- C10: on the stop and disconnect termination paths the receive task's
cleanup removes the stream-to-article entry before the finalization runs,
so the finalization resolves no article identifier: the grouped dialogue is
written only to the log files (wroteLogFiles) and the interview database
update is skipped (dbArticleId is none). -/
theorem stop_path_skips_db_update (M : StreamMaps) (sid : String)
    (conversation_log : List LogEntry)
    (hlog : List.lookup sid M.conversation_logs = some conversation_log)
    (hne : conversation_log ≠ []) :
    (stopPathFinal M sid).1.dbArticleId = none ∧
    (stopPathFinal M sid).1.wroteLogFiles = true := by
  simp [stopPathFinal, save_conversation_log, stopEventCleanup, hlog, hne,
    lookup_eraseKey]

/-- Witness for C10 at the concrete session M0. -/
theorem stop_path_skips_db_update_witness :
    (stopPathFinal M0 ("MZ1")).1.dbArticleId = none ∧
    (stopPathFinal M0 ("MZ1")).1.wroteLogFiles = true :=
  stop_path_skips_db_update M0 ("MZ1") [⟨Speaker.user, ("moi")⟩]
    (by decide) (by decide)

/-- C9: the enrichment trigger is bounded by the 300 second timeout; a run
exceeding it yields none, a run that raises yields none (the exception is
caught, so nothing propagates to the caller), a run finishing in time with
a result yields it, and in the persistence trace the transcript update
precedes the enrichment trigger, so the committed transcript is unaffected
by the trigger's outcome. -/
theorem enrichment_trigger_bounded (run : EnrichRun) :
    ENRICHMENT_TIMEOUT_S = 300 ∧
    (300 < run.duration_s → process_call_ended run = none) ∧
    (∀ msg, run.outcome = EnrichOutcome.raises msg → process_call_ended run = none) ∧
    (∀ r, run.duration_s ≤ 300 → run.outcome = EnrichOutcome.ok r →
      process_call_ended run = some r) ∧
    List.indexOf InterviewEvent.transcriptUpdate (update_interview_trace true) <
      List.indexOf InterviewEvent.enrichTrigger (update_interview_trace true) := by
  refine ⟨rfl, fun h => ?_, fun msg hm => ?_, fun r hd ho => ?_, by decide⟩
  · simp [process_call_ended, ENRICHMENT_TIMEOUT_S, h]
  · simp [process_call_ended, ENRICHMENT_TIMEOUT_S, hm]
  · have hnd : ¬ (300 < run.duration_s) := by omega
    simp [process_call_ended, ENRICHMENT_TIMEOUT_S, hnd, ho]

/-- Witness for C9: a 301 second run times out to none, a raising run
yields none, a fast successful run returns its result. -/
theorem enrichment_trigger_bounded_witness :
    process_call_ended ⟨301, EnrichOutcome.ok ("enriched")⟩ = none ∧
    process_call_ended ⟨10, EnrichOutcome.raises ("boom")⟩ = none ∧
    process_call_ended ⟨10, EnrichOutcome.ok ("enriched")⟩ = some ("enriched") :=
  ⟨(enrichment_trigger_bounded ⟨301, EnrichOutcome.ok ("enriched")⟩).2.1 (by decide),
   (enrichment_trigger_bounded ⟨10, EnrichOutcome.raises ("boom")⟩).2.2.1
     ("boom") rfl,
   (enrichment_trigger_bounded ⟨10, EnrichOutcome.ok ("enriched")⟩).2.2.2.1
     ("enriched") (by decide) rfl⟩

end NewsroomSpec
